import Mathlib

/-!
# Verification of the DuplicateImages duplicate-detection engine

Shallow embedding of `duplicate.py`: the pairwise search engine
(`similar_images` with its sequential and parallel execution modes, the
parallel mode going through `pool_filter` and the worker pool's `starmap`),
and the two comparator strategies (`compare_exactly` and
`compare_histograms` / `compare_image_histograms`).

Conventions of the embedding:
* File paths are `String`s.  The memoised attribute lookups `get_size` and
  `get_hash` (backed by `lru_cache` over pure reads in the source) are
  passed as explicit environment functions `String → ℕ` and
  `String → String`.
* Python floats are embedded as real numbers `ℝ`.
* Image decoding (`ImageWrapper.create`) may raise; it is embedded as a
  function into `Except DecodeError ImageWrapper`.
* The worker pool's `starmap` distributes the task list in chunks and
  collects the per-task results in the original task order; with a pure
  comparator this is deterministic and is embedded as a pure chunked map.
-/

namespace DuplicateImages

/-- `CHUNK_SIZE = 25` in `duplicate.py`.  Chunk sizes are Python ints and
may in principle be zero or negative, so they are embedded as `ℤ`. -/
def CHUNK_SIZE : ℤ := 25

/-- `compare_exactly(file, other_file, aspect_fuzziness, rms_error)`:
`return get_size(other_file) == get_size(file) and get_hash(file) == get_hash(other_file)`.
The two attribute lookups are passed as environment functions; the two
fuzziness parameters are accepted (same signature as the histogram
strategy) but unused. -/
def compare_exactly (get_size : String → ℕ) (get_hash : String → String)
    (file other_file : String) (aspect_fuzziness rms_error : ℝ) : Bool :=
  get_size other_file == get_size file && get_hash file == get_hash other_file

/-- The decoded image of `image_wrapper.py`: width, height and a
fixed-length numeric histogram.  Modelled from the spec:
`image_wrapper.py` is not among the sources; the spec describes an Image
Representation as "a decoded image exposing width, height, and a
fixed-length numeric histogram". -/
structure ImageWrapper where
  width : ℕ
  height : ℕ
  histogram : List ℝ

/-- `image.get_histogram()`. -/
def ImageWrapper.get_histogram (image : ImageWrapper) : List ℝ :=
  image.histogram

/-- An image's width/height aspect quotient, as a real number. -/
noncomputable def ImageWrapper.aspect (image : ImageWrapper) : ℝ :=
  (image.width : ℝ) / (image.height : ℝ)

/-- `aspects_roughly_equal(image, other_image, aspect_fuzziness)`.
Modelled from the spec: the function lives in `image_wrapper.py`, which is
not among the sources.  Spec: "compute each image's width/height ratio; if
the two ratios differ by more than `aspectFuzziness` (relative
difference), return false immediately" — so the gate passes exactly when
the relative difference of the two aspect quotients is at most the
fuzziness. -/
def aspects_roughly_equal (image other_image : ImageWrapper)
    (aspect_fuzziness : ℝ) : Prop :=
  |image.aspect / other_image.aspect - 1| ≤ aspect_fuzziness

/-- The inner `get_deviations(hist, other_hist)` of
`compare_image_histograms`: `map(lambda a, b: (a - b) ** 2, hist, other_hist)`.
Python's two-iterable `map` stops at the shorter input, i.e. `zipWith`. -/
def get_deviations (hist other_hist : List ℝ) : List ℝ :=
  List.zipWith (fun a b => (a - b) ^ 2) hist other_hist

/-- `compare_image_histograms(image, other_image, aspect_fuzziness, rms_error)`:
if the aspect gate fails the function returns `False` at once; otherwise it
returns `rms < rms_error` with
`rms = sqrt(sum(deviations) / len(image.get_histogram()))`.
The early `return False` branch makes the result the conjunction of the
gate with the RMS comparison. -/
def compare_image_histograms (image other_image : ImageWrapper)
    (aspect_fuzziness rms_error : ℝ) : Prop :=
  aspects_roughly_equal image other_image aspect_fuzziness ∧
    Real.sqrt ((get_deviations image.get_histogram other_image.get_histogram).sum /
      (image.get_histogram.length : ℝ)) < rms_error

/-- The exceptions caught by `compare_histograms`: `except (IOError, TypeError)`.
The spec's decode failures (I/O error, unsupported or corrupt format)
surface as `IOError`; `TypeError` covers non-image arguments. -/
inductive DecodeError where
  | ioError
  | typeError
deriving DecidableEq

/-- `compare_histograms(file, other_file, aspect_fuzziness, rms_error)`:
decode both files with `ImageWrapper.create` (passed here as an
environment function that either returns an image or fails) and compare
the images; any decode failure is caught by the `except` clause and turned
into `False`.  The embedding is total: no failure escapes. -/
def compare_histograms (create : String → Except DecodeError ImageWrapper)
    (file other_file : String) (aspect_fuzziness rms_error : ℝ) : Prop :=
  match create file, create other_file with
  | .ok image, .ok other_image =>
      compare_image_histograms image other_image aspect_fuzziness rms_error
  | _, _ => False

/-- `Pool._get_tasks` for a POSITIVE chunksize: cut the task list into
consecutive batches of `chunksize` tasks (the last batch may be shorter).
With `chunksize <= 0` CPython's pool generates no batches at all; that
case is handled in `starmap` below and never reaches this function. -/
def get_tasks (chunksize : ℕ) : List α → List (List α)
  | [] => []
  | x :: xs => (x :: xs.take (chunksize - 1)) :: get_tasks chunksize (xs.drop (chunksize - 1))
  termination_by l => l.length
  decreasing_by simp; omega

/-- `pool.starmap(f, tasks, chunksize)`.  Each result slot starts as
Python `None` (`MapResult._value = [None] * length`).  With
`chunksize <= 0`, `MapResult.__init__` completes the result immediately
and `_get_tasks` generates no batches, so NO task is evaluated and the
caller receives `[None] * length`.  With a positive chunksize every batch
is evaluated and the results are collected back in the original task
order, each slot filled with the function's value. -/
def starmap (f : α → β) (tasks : List α) (chunksize : ℤ) : List (Option β) :=
  if chunksize ≤ 0 then
    List.replicate tasks.length none
  else
    (((get_tasks chunksize.toNat tasks).map (fun batch => batch.map f)).flatten).map
      (fun b => some b)

/-- Python truthiness of a `starmap` result slot, as tested by
`if keep` in `pool_filter`: `None` and `False` are falsy, `True` is
truthy. -/
def truthy : Option Bool → Bool
  | some b => b
  | none => false

/-- `pool_filter(candidates, compare_images, aspect_fuzziness, rms_error, chunk_size)`:
`[c for c, keep in zip(candidates, pool.starmap(partial(compare_images, ...), candidates, chunksize=chunk_size)) if keep]`. -/
def pool_filter (candidates : List (String × String))
    (compare_images : String → String → ℝ → ℝ → Bool)
    (aspect_fuzziness rms_error : ℝ) (chunk_size : ℤ) : List (String × String) :=
  ((candidates.zip (starmap
      (fun c => compare_images c.1 c.2 aspect_fuzziness rms_error)
      candidates chunk_size)).filter (fun ck => truthy ck.2)).map (fun ck => ck.1)

/-- The candidate-pair comprehension of `similar_images`:
`[(file, other_file) for file in files for other_file in files[files.index(file) + 1:]]`.
Note `files.index(file)` is the position of the FIRST occurrence of
`file` in `files`, embedded by `List.indexOf`. -/
def candidate_pairs (files : List String) : List (String × String) :=
  files.flatMap (fun file =>
    (files.drop (files.indexOf file + 1)).map (fun other_file => (file, other_file)))

/-- `similar_images(files, compare_images, aspect_fuzziness, rms_error, parallel, chunk_size)`:
in parallel mode, materialise the candidate list and run `pool_filter`;
in sequential mode, the same comprehension with the comparator inlined as
the `if` clause. -/
def similar_images (files : List String)
    (compare_images : String → String → ℝ → ℝ → Bool)
    (aspect_fuzziness rms_error : ℝ)
    (parallel : Bool) (chunk_size : ℤ) : List (String × String) :=
  if parallel then
    let candidates := files.flatMap (fun file =>
      (files.drop (files.indexOf file + 1)).map (fun other_file => (file, other_file)))
    pool_filter candidates compare_images aspect_fuzziness rms_error chunk_size
  else
    files.flatMap (fun file =>
      ((files.drop (files.indexOf file + 1)).filter
        (fun other_file => compare_images file other_file aspect_fuzziness rms_error)).map
        (fun other_file => (file, other_file)))

/-- Structural-recursion presentation of the candidate pairs: the head
paired with every later element, then the pairs of the tail.  Proved equal
to `candidate_pairs` on duplicate-free lists. -/
def triangle_pairs : List String → List (String × String)
  | [] => []
  | x :: xs => (xs.map (fun y => (x, y))) ++ triangle_pairs xs

/-- The spec's RMS deviation between two histograms, written as the spec
does: "for each histogram bucket index, take the squared difference of the
two bucket values, average over all buckets, take the square root". -/
noncomputable def spec_rms (hist other_hist : List ℝ) : ℝ :=
  Real.sqrt ((∑ k ∈ Finset.range hist.length,
    (hist.getD k 0 - other_hist.getD k 0) ^ 2) / (hist.length : ℝ))

/-! ## Execution-mode lemmas -/

theorem get_tasks_flatten (n : ℕ) (l : List α) : (get_tasks n l).flatten = l := by
  induction l using get_tasks.induct n with
  | case1 => simp [get_tasks]
  | case2 x xs ih => simp [get_tasks, ih]

theorem starmap_pos_eq (f : α → β) (tasks : List α) (n : ℤ) (hn : 0 < n) :
    starmap f tasks n = (tasks.map f).map (fun b => some b) := by
  rw [starmap, if_neg (not_le.mpr hn), ← List.map_flatten, get_tasks_flatten]

theorem starmap_nonpos (f : α → β) (tasks : List α) (n : ℤ) (hn : n ≤ 0) :
    starmap f tasks n = List.replicate tasks.length none := by
  rw [starmap, if_pos hn]

theorem truthy_some (b : Bool) : truthy (some b) = b := rfl

theorem truthy_none : truthy none = false := rfl

theorem zip_map_some_filter (l : List (String × String)) (f : String × String → Bool) :
    ((l.zip (l.map (fun p => some (f p)))).filter
      (fun ck => truthy ck.2)).map (fun ck => ck.1) = l.filter f := by
  induction l with
  | nil => rfl
  | cons x xs ih => by_cases h : f x <;> simp [truthy_some, List.filter_cons, h, ih]

theorem zip_replicate_none_filter (l : List (String × String)) :
    ((l.zip (List.replicate l.length (none : Option Bool))).filter
      (fun ck => truthy ck.2)).map (fun ck => ck.1) = [] := by
  induction l with
  | nil => rfl
  | cons x xs ih => simp [truthy_none, List.replicate_succ, List.filter_cons, ih]

theorem pool_filter_pos_eq (candidates : List (String × String))
    (cmp : String → String → ℝ → ℝ → Bool) (a r : ℝ) (c : ℤ) (hc : 0 < c) :
    pool_filter candidates cmp a r c =
      candidates.filter (fun p => cmp p.1 p.2 a r) := by
  rw [pool_filter, starmap_pos_eq _ _ _ hc, List.map_map]
  exact zip_map_some_filter candidates _

theorem pool_filter_nonpos (candidates : List (String × String))
    (cmp : String → String → ℝ → ℝ → Bool) (a r : ℝ) (c : ℤ) (hc : c ≤ 0) :
    pool_filter candidates cmp a r c = [] := by
  rw [pool_filter, starmap_nonpos _ _ _ hc]
  exact zip_replicate_none_filter candidates

theorem similar_images_false_eq (files : List String)
    (cmp : String → String → ℝ → ℝ → Bool) (a r : ℝ) (c : ℤ) :
    similar_images files cmp a r false c =
      (candidate_pairs files).filter (fun p => cmp p.1 p.2 a r) := by
  simp only [similar_images, if_neg Bool.false_ne_true, candidate_pairs,
    List.filter_flatMap, List.filter_map, Function.comp_def]

theorem similar_images_true_eq (files : List String)
    (cmp : String → String → ℝ → ℝ → Bool) (a r : ℝ) (c : ℤ) (hc : 0 < c) :
    similar_images files cmp a r true c =
      (candidate_pairs files).filter (fun p => cmp p.1 p.2 a r) := by
  rw [similar_images]
  exact pool_filter_pos_eq _ _ _ _ _ hc

theorem similar_images_true_nonpos (files : List String)
    (cmp : String → String → ℝ → ℝ → Bool) (a r : ℝ) (c : ℤ) (hc : c ≤ 0) :
    similar_images files cmp a r true c = [] := by
  rw [similar_images]
  exact pool_filter_nonpos _ _ _ _ _ hc

/-- C2 fails as stated at `chunk_size = 0`: `Pool.starmap` with a
non-positive chunksize evaluates no task and returns `[None] * N`, so the
parallel mode returns no matches while the sequential mode returns the
match `("a", "b")`. -/
theorem similar_images_multiset_chunk_zero_cex :
    similar_images ["a", "b"] (fun _ _ _ _ => true) 0 0 true 0 = [] ∧
    similar_images ["a", "b"] (fun _ _ _ _ => true) 0 0 false 0 = [("a", "b")] ∧
    ¬ ((↑(similar_images ["a", "b"] (fun _ _ _ _ => true) 0 0 true 0) :
        Multiset (String × String)) =
      ↑(similar_images ["a", "b"] (fun _ _ _ _ => true) 0 0 false 0)) := by
  have h₁ : similar_images ["a", "b"] (fun _ _ _ _ => true) 0 0 true 0 = [] := rfl
  have h₂ : similar_images ["a", "b"] (fun _ _ _ _ => true) 0 0 false 0 =
      [("a", "b")] := rfl
  refine ⟨h₁, h₂, fun h => ?_⟩
  rw [h₁, h₂] at h
  simp at h

/-- C2 amended: for every input file list, pure comparator, parameter
values and POSITIVE chunk size, parallel execution returns the same
multiset of matched pairs as sequential execution (whatever the
sequential call's chunk size).  Both modes then reduce to filtering the
same candidate-pair list. -/
theorem similar_images_parallel_multiset_eq_pos (files : List String)
    (cmp : String → String → ℝ → ℝ → Bool) (a r : ℝ) (c c₂ : ℤ) (hc : 0 < c) :
    (↑(similar_images files cmp a r true c) : Multiset (String × String)) =
      ↑(similar_images files cmp a r false c₂) := by
  rw [similar_images_true_eq files cmp a r c hc, similar_images_false_eq]

theorem similar_images_parallel_multiset_eq_pos_witness :
    (0 : ℤ) < 1 ∧
    (↑(similar_images ["a", "b"] (fun _ _ _ _ => true) 0 0 true 1) :
        Multiset (String × String)) =
      ↑(similar_images ["a", "b"] (fun _ _ _ _ => true) 0 0 false 25) :=
  ⟨by decide, similar_images_parallel_multiset_eq_pos ["a", "b"]
    (fun _ _ _ _ => true) 0 0 1 25 (by decide)⟩

/-- C9 fails as stated at `chunk_size = 0`: the parallel mode returns the
empty list (no task is evaluated) while the sequential mode returns the
match, so the two lists differ. -/
theorem similar_images_order_chunk_zero_cex :
    similar_images ["x", "y"] (fun _ _ _ _ => true) 0 0 true 0 ≠
      similar_images ["x", "y"] (fun _ _ _ _ => true) 0 0 false 0 := by
  have h₁ : similar_images ["x", "y"] (fun _ _ _ _ => true) 0 0 true 0 = [] := rfl
  have h₂ : similar_images ["x", "y"] (fun _ _ _ _ => true) 0 0 false 0 =
      [("x", "y")] := rfl
  intro h
  rw [h₁, h₂] at h
  exact List.cons_ne_nil _ _ h.symm

/-- C9 amended: for every input file list, pure comparator and parameters,
and every POSITIVE chunk size, parallel mode returns the matched pairs in
exactly the sequential order — `pool_filter` zips the in-order `starmap`
results back against the materialised candidate list, so the two modes
agree as lists. -/
theorem similar_images_parallel_order_eq_pos (files : List String)
    (cmp : String → String → ℝ → ℝ → Bool) (a r : ℝ) (c : ℤ) (hc : 0 < c) :
    similar_images files cmp a r true c = similar_images files cmp a r false c := by
  rw [similar_images_true_eq files cmp a r c hc, similar_images_false_eq]

theorem similar_images_parallel_order_eq_pos_witness :
    (0 : ℤ) < 2 ∧
    similar_images ["x", "y"] (fun _ _ _ _ => true) 0 0 true 2 =
      similar_images ["x", "y"] (fun _ _ _ _ => true) 0 0 false 2 :=
  ⟨by decide, similar_images_parallel_order_eq_pos ["x", "y"]
    (fun _ _ _ _ => true) 0 0 2 (by decide)⟩

/-! ## The exact comparator -/

/-- C3: `compare_exactly` returns true iff the two byte sizes agree and
the two content-hash digests agree. -/
theorem compare_exactly_iff_size_hash (get_size : String → ℕ)
    (get_hash : String → String) (A B : String) (f r : ℝ) :
    compare_exactly get_size get_hash A B f r = true ↔
      (get_size A = get_size B ∧ get_hash A = get_hash B) := by
  simp only [compare_exactly, Bool.and_eq_true, beq_iff_eq]
  constructor <;> rintro ⟨h₁, h₂⟩ <;> exact ⟨h₁.symm, h₂⟩

/-- C8: the exact comparator is symmetric in its two file arguments. -/
theorem compare_exactly_symm (get_size : String → ℕ) (get_hash : String → String)
    (A B : String) (f r : ℝ) :
    compare_exactly get_size get_hash A B f r =
      compare_exactly get_size get_hash B A f r := by
  rw [Bool.eq_iff_iff]
  simp only [compare_exactly, Bool.and_eq_true, beq_iff_eq]
  constructor <;> rintro ⟨h₁, h₂⟩ <;> exact ⟨h₁.symm, h₂.symm⟩

/-- C10: `compare_exactly` never reads its `aspect_fuzziness` and
`rms_error` arguments, so its result is independent of them. -/
theorem compare_exactly_indep_params (get_size : String → ℕ)
    (get_hash : String → String) (A B : String) (f₁ r₁ f₂ r₂ : ℝ) :
    compare_exactly get_size get_hash A B f₁ r₁ =
      compare_exactly get_size get_hash A B f₂ r₂ := rfl

/-! ## Candidate-pair combinatorics -/

theorem flatMap_congr_mem {α β : Type} {f g : α → List β} (l : List α)
    (h : ∀ a ∈ l, f a = g a) : l.flatMap f = l.flatMap g := by
  induction l with
  | nil => rfl
  | cons x xs ih =>
      rw [List.flatMap_cons, List.flatMap_cons, h x (List.mem_cons_self x xs),
        ih (fun a ha => h a (List.mem_cons_of_mem x ha))]

theorem candidate_pairs_eq_triangle (files : List String) (h : files.Nodup) :
    candidate_pairs files = triangle_pairs files := by
  induction files with
  | nil => rfl
  | cons x xs ih =>
      obtain ⟨hx, hxs⟩ := List.nodup_cons.mp h
      rw [candidate_pairs, List.flatMap_cons]
      show _ ++ _ = (xs.map (fun y => (x, y))) ++ triangle_pairs xs
      congr 1
      · simp
      · rw [← ih hxs, candidate_pairs]
        refine flatMap_congr_mem xs (fun file hfile => ?_)
        have hne : x ≠ file := fun e => hx (e ▸ hfile)
        rw [List.indexOf_cons_ne _ hne, List.drop_succ_cons]

theorem triangle_pairs_length_two (l : List String) :
    2 * (triangle_pairs l).length = l.length * (l.length - 1) := by
  induction l with
  | nil => rfl
  | cons x xs ih =>
      simp only [triangle_pairs, List.length_append, List.length_map, List.length_cons,
        Nat.add_sub_cancel]
      have hsq : (xs.length + 1) * xs.length =
          xs.length * (xs.length - 1) + 2 * xs.length := by
        cases xs.length with
        | zero => rfl
        | succ n => simp only [Nat.succ_sub_one]; ring
      omega

theorem mem_triangle_pairs {p : String × String} {l : List String}
    (hp : p ∈ triangle_pairs l) : p.1 ∈ l ∧ p.2 ∈ l := by
  induction l with
  | nil => simp [triangle_pairs] at hp
  | cons x xs ih =>
      simp only [triangle_pairs, List.mem_append, List.mem_map] at hp
      rcases hp with ⟨y, hy, rfl⟩ | hp
      · exact ⟨List.mem_cons_self x xs, List.mem_cons_of_mem x hy⟩
      · rcases ih hp with ⟨h₁, h₂⟩
        exact ⟨List.mem_cons_of_mem x h₁, List.mem_cons_of_mem x h₂⟩

theorem triangle_pairs_ne {l : List String} (h : l.Nodup) :
    ∀ p ∈ triangle_pairs l, p.1 ≠ p.2 := by
  induction l with
  | nil => intro p hp; simp [triangle_pairs] at hp
  | cons x xs ih =>
      obtain ⟨hx, hxs⟩ := List.nodup_cons.mp h
      intro p hp
      simp only [triangle_pairs, List.mem_append, List.mem_map] at hp
      rcases hp with ⟨y, hy, rfl⟩ | hp
      · exact fun e => hx (by rw [show x = y from e]; exact hy)
      · exact ih hxs p hp

theorem triangle_pairs_countP {l : List String} (h : l.Nodup) {a b : String}
    (ha : a ∈ l) (hb : b ∈ l) (hab : a ≠ b) :
    (triangle_pairs l).countP
      (fun p => (p.1 == a && p.2 == b) || (p.1 == b && p.2 == a)) = 1 := by
  induction l with
  | nil => simp at ha
  | cons x xs ih =>
      obtain ⟨hx, hxs⟩ := List.nodup_cons.mp h
      show ((xs.map (fun y => (x, y))) ++ triangle_pairs xs).countP _ = 1
      rw [List.countP_append, List.countP_map]
      by_cases hax : a = x
      · subst hax
        have hbxs : b ∈ xs := (List.mem_cons.mp hb).resolve_left (fun e => hab e.symm)
        have hmap : xs.countP
            ((fun p : String × String => (p.1 == a && p.2 == b) || (p.1 == b && p.2 == a)) ∘
              (fun y => (a, y))) = 1 := by
          have : ∀ y, ((fun p : String × String =>
              (p.1 == a && p.2 == b) || (p.1 == b && p.2 == a)) ∘ (fun y => (a, y))) y =
              (y == b) := by
            intro y
            simp only [Function.comp_apply, beq_self_eq_true, Bool.true_and]
            have hba : (a == b) = false := beq_eq_false_iff_ne.mpr hab
            simp [hba]
          rw [List.countP_congr (fun y _ => by rw [this y])]
          rw [show (fun y => y == b) = (· == b) from rfl]
          exact List.count_eq_one_of_mem hxs hbxs
        have htri : (triangle_pairs xs).countP
            (fun p => (p.1 == a && p.2 == b) || (p.1 == b && p.2 == a)) = 0 := by
          refine List.countP_eq_zero.mpr (fun p hp => ?_)
          have hmem := mem_triangle_pairs hp
          have h1 : (p.1 == a) = false := beq_eq_false_iff_ne.mpr
            (fun e => hx (e ▸ hmem.1))
          have h2 : (p.2 == a) = false := beq_eq_false_iff_ne.mpr
            (fun e => hx (e ▸ hmem.2))
          simp [h1, h2]
        omega
      · by_cases hbx : b = x
        · subst hbx
          have haxs : a ∈ xs := (List.mem_cons.mp ha).resolve_left hax
          have hmap : xs.countP
              ((fun p : String × String => (p.1 == a && p.2 == b) || (p.1 == b && p.2 == a)) ∘
                (fun y => (b, y))) = 1 := by
            have : ∀ y, ((fun p : String × String =>
                (p.1 == a && p.2 == b) || (p.1 == b && p.2 == a)) ∘ (fun y => (b, y))) y =
                (y == a) := by
              intro y
              simp only [Function.comp_apply, beq_self_eq_true, Bool.true_and]
              have hba : (b == a) = false := beq_eq_false_iff_ne.mpr (fun e => hab e.symm)
              simp [hba]
            rw [List.countP_congr (fun y _ => by rw [this y])]
            rw [show (fun y => y == a) = (· == a) from rfl]
            exact List.count_eq_one_of_mem hxs haxs
          have htri : (triangle_pairs xs).countP
              (fun p => (p.1 == a && p.2 == b) || (p.1 == b && p.2 == a)) = 0 := by
            refine List.countP_eq_zero.mpr (fun p hp => ?_)
            have hmem := mem_triangle_pairs hp
            have h1 : (p.1 == b) = false := beq_eq_false_iff_ne.mpr
              (fun e => hx (e ▸ hmem.1))
            have h2 : (p.2 == b) = false := beq_eq_false_iff_ne.mpr
              (fun e => hx (e ▸ hmem.2))
            simp [h1, h2]
          omega
        · have haxs : a ∈ xs := (List.mem_cons.mp ha).resolve_left hax
          have hbxs : b ∈ xs := (List.mem_cons.mp hb).resolve_left hbx
          have hmap : xs.countP
              ((fun p : String × String => (p.1 == a && p.2 == b) || (p.1 == b && p.2 == a)) ∘
                (fun y => (x, y))) = 0 := by
            refine List.countP_eq_zero.mpr (fun y _ => ?_)
            have h1 : (x == a) = false := beq_eq_false_iff_ne.mpr
              (fun e => hax (e.symm))
            have h2 : (x == b) = false := beq_eq_false_iff_ne.mpr
              (fun e => hbx (e.symm))
            simp [h1, h2]
          have htri := ih hxs haxs hbxs
          omega

/-! ## C1 and C6: candidate-pair generation -/

/-- C1: for every list of pairwise-distinct file paths, `similar_images`
draws its candidates from the comprehension `candidate_pairs` in both
execution modes — the parallel branch materialises exactly
`candidate_pairs files` and hands it to `pool_filter`, the sequential
branch filters exactly `candidate_pairs files` — and that comprehension
generates exactly N(N−1)/2 pairs, no self-pairs, and each unordered pair
of distinct files exactly once.  The generation happens at every chunk
size; the chunk size only governs which candidates get evaluated. -/
theorem similar_images_candidate_pairs_spec (files : List String) (h : files.Nodup) :
    (candidate_pairs files).length = files.length * (files.length - 1) / 2 ∧
    (∀ p ∈ candidate_pairs files, p.1 ≠ p.2) ∧
    (∀ a b : String, a ∈ files → b ∈ files → a ≠ b →
      (candidate_pairs files).countP
        (fun p => (p.1 == a && p.2 == b) || (p.1 == b && p.2 == a)) = 1) ∧
    (∀ (cmp : String → String → ℝ → ℝ → Bool) (a r : ℝ) (c : ℤ),
      similar_images files cmp a r true c =
        pool_filter (candidate_pairs files) cmp a r c ∧
      similar_images files cmp a r false c =
        (candidate_pairs files).filter (fun p => cmp p.1 p.2 a r)) := by
  refine ⟨?_, ?_, ?_,
    fun cmp a r c => ⟨rfl, similar_images_false_eq files cmp a r c⟩⟩
  · rw [candidate_pairs_eq_triangle files h]
    have := triangle_pairs_length_two files
    omega
  · rw [candidate_pairs_eq_triangle files h]
    exact triangle_pairs_ne h
  · intro a b ha hb hab
    rw [candidate_pairs_eq_triangle files h]
    exact triangle_pairs_countP h ha hb hab

theorem similar_images_candidate_pairs_spec_witness :
    (["a", "b", "c"] : List String).Nodup ∧
    ((candidate_pairs ["a", "b", "c"]).length =
        (["a", "b", "c"] : List String).length *
          ((["a", "b", "c"] : List String).length - 1) / 2 ∧
      (∀ p ∈ candidate_pairs ["a", "b", "c"], p.1 ≠ p.2) ∧
      (∀ a b : String, a ∈ (["a", "b", "c"] : List String) →
        b ∈ (["a", "b", "c"] : List String) → a ≠ b →
        (candidate_pairs ["a", "b", "c"]).countP
          (fun p => (p.1 == a && p.2 == b) || (p.1 == b && p.2 == a)) = 1) ∧
      (∀ (cmp : String → String → ℝ → ℝ → Bool) (a r : ℝ) (c : ℤ),
        similar_images ["a", "b", "c"] cmp a r true c =
          pool_filter (candidate_pairs ["a", "b", "c"]) cmp a r c ∧
        similar_images ["a", "b", "c"] cmp a r false c =
          (candidate_pairs ["a", "b", "c"]).filter (fun p => cmp p.1 p.2 a r))) :=
  ⟨by decide, similar_images_candidate_pairs_spec ["a", "b", "c"] (by decide)⟩

/-- C6 fails as stated on lists with repeated entries: with
`files = ["a", "a"]`, `files.index` finds the first occurrence for both
elements, so the self-pair `("a", "a")` is generated (twice) and returned
by `similar_images` under the always-true comparator. -/
theorem similar_images_self_pair_cex :
    similar_images ["a", "a"] (fun _ _ _ _ => true) 0 0 false 1 =
      [("a", "a"), ("a", "a")] ∧
    ¬ (∀ p ∈ similar_images ["a", "a"] (fun _ _ _ _ => true) 0 0 false 1,
        p.1 ≠ p.2) := by
  have heq : similar_images ["a", "a"] (fun _ _ _ _ => true) 0 0 false 1 =
      [("a", "a"), ("a", "a")] := rfl
  refine ⟨heq, fun hall => ?_⟩
  exact hall ("a", "a") (heq ▸ List.mem_cons_self _ _) rfl

/-- C6 amended: for every input list of PAIRWISE-DISTINCT paths, no
generated or returned pair compares a file against itself, and each
unordered pair of list positions is considered exactly once. -/
theorem similar_images_nodup_no_self_pairs (files : List String) (h : files.Nodup) :
    (∀ (cmp : String → String → ℝ → ℝ → Bool) (a r : ℝ) (par : Bool) (c : ℤ),
      ∀ p ∈ similar_images files cmp a r par c, p.1 ≠ p.2) ∧
    (∀ p ∈ candidate_pairs files, p.1 ≠ p.2) ∧
    (∀ i j : Fin files.length, i ≠ j →
      (candidate_pairs files).countP
        (fun p => (p.1 == files.get i && p.2 == files.get j) ||
          (p.1 == files.get j && p.2 == files.get i)) = 1) := by
  have hne : ∀ p ∈ candidate_pairs files, p.1 ≠ p.2 := by
    rw [candidate_pairs_eq_triangle files h]
    exact triangle_pairs_ne h
  refine ⟨?_, hne, ?_⟩
  · intro cmp a r par c p hp
    cases par with
    | false =>
        rw [similar_images_false_eq] at hp
        exact hne p (List.mem_of_mem_filter hp)
    | true =>
        rcases le_or_lt c 0 with hc | hc
        · rw [similar_images_true_nonpos files cmp a r c hc] at hp
          simp at hp
        · rw [similar_images_true_eq files cmp a r c hc] at hp
          exact hne p (List.mem_of_mem_filter hp)
  · intro i j hij
    rw [candidate_pairs_eq_triangle files h]
    refine triangle_pairs_countP h (List.get_mem files i.1 i.2)
      (List.get_mem files j.1 j.2) ?_
    intro e
    exact hij ((List.nodup_iff_injective_get.mp h) e)

theorem similar_images_nodup_no_self_pairs_witness :
    (["x", "y"] : List String).Nodup ∧
    ((∀ (cmp : String → String → ℝ → ℝ → Bool) (a r : ℝ) (par : Bool) (c : ℤ),
      ∀ p ∈ similar_images ["x", "y"] cmp a r par c, p.1 ≠ p.2) ∧
    (∀ p ∈ candidate_pairs ["x", "y"], p.1 ≠ p.2) ∧
    (∀ i j : Fin (["x", "y"] : List String).length, i ≠ j →
      (candidate_pairs ["x", "y"]).countP
        (fun p => (p.1 == (["x", "y"] : List String).get i &&
            p.2 == (["x", "y"] : List String).get j) ||
          (p.1 == (["x", "y"] : List String).get j &&
            p.2 == (["x", "y"] : List String).get i)) = 1)) :=
  ⟨by decide, similar_images_nodup_no_self_pairs ["x", "y"] (by decide)⟩

/-! ## The histogram comparator -/

theorem sum_zipWith_sq (a b : List ℝ) (h : a.length = b.length) :
    (List.zipWith (fun x y => (x - y) ^ 2) a b).sum =
      ∑ k ∈ Finset.range a.length, (a.getD k 0 - b.getD k 0) ^ 2 := by
  induction a generalizing b with
  | nil => simp
  | cons x xs ih =>
      cases b with
      | nil => simp at h
      | cons y ys =>
          have hlen : xs.length = ys.length := by simpa using h
          rw [List.zipWith_cons_cons, List.sum_cons, ih ys hlen,
            List.length_cons, Finset.sum_range_succ']
          simp [add_comm]

/-- C5: under the aspect gate the histogram comparison holds iff the RMS
deviation — as the spec words it, the square root of the average over
bucket indices of the squared bucket differences — is strictly below the
threshold; a failed gate means no match, the histograms notwithstanding. -/
theorem compare_image_histograms_spec (image other_image : ImageWrapper)
    (f r : ℝ)
    (hlen : image.get_histogram.length = other_image.get_histogram.length) :
    (¬ aspects_roughly_equal image other_image f →
      ¬ compare_image_histograms image other_image f r) ∧
    (aspects_roughly_equal image other_image f →
      (compare_image_histograms image other_image f r ↔
        spec_rms image.get_histogram other_image.get_histogram < r)) := by
  constructor
  · exact fun hgate hcmp => hgate hcmp.1
  · intro hgate
    unfold compare_image_histograms spec_rms
    rw [get_deviations, sum_zipWith_sq _ _ hlen]
    exact ⟨fun h => h.2, fun h => ⟨hgate, h⟩⟩

theorem compare_image_histograms_spec_witness :
    (ImageWrapper.mk 1 1 [0]).get_histogram.length =
      (ImageWrapper.mk 1 1 [0]).get_histogram.length ∧
    ((¬ aspects_roughly_equal (ImageWrapper.mk 1 1 [0]) (ImageWrapper.mk 1 1 [0]) 0 →
      ¬ compare_image_histograms (ImageWrapper.mk 1 1 [0]) (ImageWrapper.mk 1 1 [0]) 0 1) ∧
    (aspects_roughly_equal (ImageWrapper.mk 1 1 [0]) (ImageWrapper.mk 1 1 [0]) 0 →
      (compare_image_histograms (ImageWrapper.mk 1 1 [0]) (ImageWrapper.mk 1 1 [0]) 0 1 ↔
        spec_rms (ImageWrapper.mk 1 1 [0]).get_histogram
          (ImageWrapper.mk 1 1 [0]).get_histogram < 1))) :=
  ⟨rfl, compare_image_histograms_spec (ImageWrapper.mk 1 1 [0])
    (ImageWrapper.mk 1 1 [0]) 0 1 rfl⟩

/-- C7: the histogram comparison is monotonic in the RMS threshold — a
match at threshold `t` stays a match at any threshold `u ≥ t`, since the
aspect gate does not read the threshold and `rms < t ≤ u`. -/
theorem compare_image_histograms_mono (image other_image : ImageWrapper)
    (f t u : ℝ) (htu : t ≤ u)
    (h : compare_image_histograms image other_image f t) :
    compare_image_histograms image other_image f u :=
  ⟨h.1, lt_of_lt_of_le h.2 htu⟩

theorem compare_image_histograms_mono_witness :
    (1 : ℝ) ≤ 2 ∧
    compare_image_histograms (ImageWrapper.mk 1 1 [0]) (ImageWrapper.mk 1 1 [0]) 0 1 ∧
    compare_image_histograms (ImageWrapper.mk 1 1 [0]) (ImageWrapper.mk 1 1 [0]) 0 2 := by
  have h1 : compare_image_histograms (ImageWrapper.mk 1 1 [0])
      (ImageWrapper.mk 1 1 [0]) 0 1 := by
    constructor
    · norm_num [aspects_roughly_equal, ImageWrapper.aspect]
    · norm_num [get_deviations, ImageWrapper.get_histogram, Real.sqrt_zero]
  exact ⟨by norm_num, h1,
    compare_image_histograms_mono _ _ _ _ _ (by norm_num) h1⟩

/-- C4: if decoding either file fails, `compare_histograms` catches the
failure and returns false; the embedding is a total function, so the
failure is never propagated. -/
theorem compare_histograms_decode_failure
    (create : String → Except DecodeError ImageWrapper)
    (file other_file : String) (f r : ℝ)
    (h : (∃ e, create file = .error e) ∨ (∃ e, create other_file = .error e)) :
    ¬ compare_histograms create file other_file f r := by
  intro hcmp
  unfold compare_histograms at hcmp
  rcases h with ⟨e, he⟩ | ⟨e, he⟩
  · rw [he] at hcmp
    exact hcmp
  · cases hf : create file with
    | error e₂ => rw [hf] at hcmp; exact hcmp
    | ok img => rw [hf, he] at hcmp; exact hcmp

theorem compare_histograms_decode_failure_witness :
    ((∃ e, (fun _ : String =>
        (Except.error DecodeError.ioError : Except DecodeError ImageWrapper))
        "bad.jpg" = .error e) ∨
      (∃ e, (fun _ : String =>
        (Except.error DecodeError.ioError : Except DecodeError ImageWrapper))
        "good.jpg" = .error e)) ∧
    ¬ compare_histograms
      (fun _ => (Except.error DecodeError.ioError : Except DecodeError ImageWrapper))
      "bad.jpg" "good.jpg" 0 1 :=
  ⟨.inl ⟨.ioError, rfl⟩,
    compare_histograms_decode_failure _ _ _ _ _ (.inl ⟨.ioError, rfl⟩)⟩

end DuplicateImages
